import Mathlib

/-
Verification development for the badger encryption-key registry slice
(key_registry.go and the y-package cipher helpers).

Modelling conventions:
  * bytes are `Nat` values (< 256 for real byte data); machine integers are
    `Nat`/`Int` with explicit `% 2^w` where overflow matters;
  * the AES-CTR keystream is an external primitive (crypto/aes and
    crypto/cipher are not part of this repository slice); every definition
    that uses it is parameterised by a keystream function
    `ks : key -> iv -> byte-index -> byte`.  All theorems are proved for an
    arbitrary keystream, which is exactly the strength the claims need:
    they concern the XOR / chunking / state structure, not AES itself;
  * fallible Go operations return `Except Err`;
  * `crypto/rand` results (GenerateIV, rand.Read) are passed in as
    `Except Err (List Nat)` oracle arguments.
-/

namespace Badger

/-- Error values surfaced by the modelled code paths. -/
inductive Err where
  | eof
  | notExist
  | badChecksum
  | keyMismatch
  | invalidDataKeyID
  | invalidArgument
  | invalidKeySize
  | invalidIVSize
  | decodeFailure
  | ivGenFailure
  | randFailure
  deriving DecidableEq, Repr

/-- Big-endian encoding of `x` into `w` bytes (binary.BigEndian.PutUint32 /
PutUint64 semantics: the value is truncated to the low 8*w bits). -/
def toBytesBE : Nat → Nat → List Nat
  | 0, _ => []
  | w + 1, x => toBytesBE w (x / 256) ++ [x % 256]

/-- Big-endian decoding of a byte list (binary.BigEndian.Uint32 semantics). -/
def fromBytesBE (b : List Nat) : Nat :=
  b.foldl (fun a c => a * 256 + c) 0

theorem toBytesBE_length (w x : Nat) : (toBytesBE w x).length = w := by
  induction w generalizing x with
  | zero => simp [toBytesBE]
  | succ w ih => simp [toBytesBE, ih]

theorem fromBytesBE_append_singleton (l : List Nat) (b : Nat) :
    fromBytesBE (l ++ [b]) = fromBytesBE l * 256 + b := by
  simp [fromBytesBE, List.foldl_append]

theorem fromBytesBE_toBytesBE (w x : Nat) :
    fromBytesBE (toBytesBE w x) = x % 256 ^ w := by
  induction w generalizing x with
  | zero => simp [toBytesBE, fromBytesBE, Nat.mod_one]
  | succ w ih =>
    rw [toBytesBE, fromBytesBE_append_singleton, ih, pow_succ']
    rw [Nat.mod_mul]
    omega

theorem fromBytesBE_toBytesBE_of_lt {w x : Nat} (h : x < 256 ^ w) :
    fromBytesBE (toBytesBE w x) = x := by
  rw [fromBytesBE_toBytesBE, Nat.mod_eq_of_lt h]

/-- Keystream function type: key, IV and byte offset to keystream byte. -/
abbrev Keystream := List Nat → List Nat → Nat → Nat

/-- XOR a byte list against the keystream starting at offset `off`
(the effect of cipher.Stream.XORKeyStream at stream position `off`). -/
def xorKeystream (ks : Keystream) (key iv : List Nat) : Nat → List Nat → List Nat
  | _, [] => []
  | off, b :: rest => (b ^^^ ks key iv off % 256) :: xorKeystream ks key iv (off + 1) rest

theorem xorKeystream_length (ks : Keystream) (key iv : List Nat) (off : Nat)
    (src : List Nat) : (xorKeystream ks key iv off src).length = src.length := by
  induction src generalizing off with
  | nil => simp [xorKeystream]
  | cons b rest ih => simp [xorKeystream, ih]

theorem xorKeystream_xorKeystream (ks : Keystream) (key iv : List Nat) (off : Nat)
    (src : List Nat) :
    xorKeystream ks key iv off (xorKeystream ks key iv off src) = src := by
  induction src generalizing off with
  | nil => simp [xorKeystream]
  | cons b rest ih =>
    simp only [xorKeystream, ih]
    rw [Nat.xor_assoc, Nat.xor_self, Nat.xor_zero]

/-- Whether a key length is accepted by aes.NewCipher (16, 24 or 32 bytes). -/
def validKeyLength (key : List Nat) : Prop :=
  key.length = 16 ∨ key.length = 24 ∨ key.length = 32

instance (key : List Nat) : Decidable (validKeyLength key) := by
  unfold validKeyLength; infer_instance

/-- y.XORBlock: build an AES cipher from `key` (length must be 16/24/32),
wrap it in CTR mode with `iv` (cipher.NewCTR rejects an IV that is not one
block = 16 bytes; in Go that is a panic, modelled here as an error), and XOR
`src` with the keystream from offset 0. -/
def XORBlock (ks : Keystream) (src key iv : List Nat) : Except Err (List Nat) :=
  if ¬ validKeyLength key then .error .invalidKeySize
  else if iv.length ≠ 16 then .error .invalidIVSize
  else .ok (xorKeystream ks key iv 0 src)

/-- Loop of y.XORReader: read up to 1024 input bytes per iteration, transform
them into bufOut via the shared CTR stream (keystream offset continues across
chunks), then write bufIn -- the untransformed input chunk -- to the output.
The transformed bytes in bufOut are never written; this mirrors the source,
where the Write call uses bufIn instead of bufOut. -/
def xorReaderLoop (ks : Keystream) (key iv : List Nat) (off : Nat) (input : List Nat) :
    List Nat :=
  if h : input = [] then []
  else
    let chunk := input.take 1024
    let _bufOut := xorKeystream ks key iv off chunk
    chunk ++ xorReaderLoop ks key iv (off + chunk.length) (input.drop 1024)
  termination_by input.length
  decreasing_by
    simp only [List.length_drop]
    have : input.length ≠ 0 := fun hl => h (List.eq_nil_of_length_eq_zero hl)
    omega

/-- y.XORReader: stream variant of XORBlock over an in-memory input stream. -/
def XORReader (ks : Keystream) (input key iv : List Nat) : Except Err (List Nat) :=
  if ¬ validKeyLength key then .error .invalidKeySize
  else if iv.length ≠ 16 then .error .invalidIVSize
  else .ok (xorReaderLoop ks key iv 0 input)

theorem xorReaderLoop_eq_input (ks : Keystream) (key iv : List Nat) :
    ∀ (n : Nat) (input : List Nat) (off : Nat), input.length ≤ n →
      xorReaderLoop ks key iv off input = input := by
  intro n
  induction n with
  | zero =>
    intro input off h
    have : input = [] := List.eq_nil_of_length_eq_zero (Nat.le_zero.mp h)
    rw [this, xorReaderLoop]
    simp
  | succ n ih =>
    intro input off h
    rw [xorReaderLoop]
    by_cases hnil : input = []
    · simp [hnil]
    · simp only [hnil, dite_false]
      have hdrop : (input.drop 1024).length ≤ n := by
        simp only [List.length_drop]
        have : input.length ≠ 0 := fun hl => hnil (List.eq_nil_of_length_eq_zero hl)
        omega
      rw [ih _ _ hdrop]
      exact List.take_append_drop 1024 input

/-- CRC32 bit step with the reflected Castagnoli polynomial. -/
def crcRound (c : Nat) : Nat :=
  if c % 2 = 1 then (c / 2) ^^^ 0x82F63B78 else c / 2

/-- CRC32 update for one byte. -/
def crcByte (c b : Nat) : Nat :=
  crcRound^[8] (c ^^^ b % 256)

/-- crc32.Checksum with crc32.Castagnoli (y.CastagnoliCrcTable); the result
is a uint32, kept below 2^32 with an explicit mod. -/
def crc32C (data : List Nat) : Nat :=
  (data.foldl crcByte 0xFFFFFFFF ^^^ 0xFFFFFFFF) % 4294967296

theorem crc32C_lt (data : List Nat) : crc32C data < 4294967296 :=
  Nat.mod_lt _ (by norm_num)

/-- pb.DataKey: fields KeyId (uint64), Data (key material bytes),
Iv (16-byte IV), CreatedAt (int64 unix seconds). -/
structure DataKey where
  keyId : Nat
  data : List Nat
  iv : List Nat
  createdAt : Int
  deriving DecidableEq, Repr

/-- Modelled from the spec: pb.DataKey's protobuf Marshal is not part of this
repository slice (only the generated pb package provides it); spec section 4.2
requires only "a stable serialization" of the fields (id, material, iv,
created_at).  We model it as a fixed-width field encoding: 8-byte big-endian
key id, 8-byte big-endian two's-complement created_at, then the material and
the IV, each preceded by its 4-byte big-endian length. -/
def DataKey.marshal (k : DataKey) : List Nat :=
  toBytesBE 8 (k.keyId % 18446744073709551616) ++
  toBytesBE 8 ((k.createdAt % 18446744073709551616).toNat) ++
  toBytesBE 4 (k.data.length % 4294967296) ++ k.data ++
  toBytesBE 4 (k.iv.length % 4294967296) ++ k.iv

/-- Read `w` bytes as a big-endian number, returning the rest of the input. -/
def readBE (w : Nat) (b : List Nat) : Option (Nat × List Nat) :=
  if w ≤ b.length then some (fromBytesBE (b.take w), b.drop w) else none

/-- Read a 4-byte length followed by that many bytes. -/
def readLenPrefixed (b : List Nat) : Option (List Nat × List Nat) :=
  match readBE 4 b with
  | none => none
  | some (n, rest) =>
    if n ≤ rest.length then some (rest.take n, rest.drop n) else none

/-- Decode an 8-byte big-endian number as a two's-complement int64. -/
def decodeInt64 (n : Nat) : Int :=
  if n < 9223372036854775808 then (n : Int) else (n : Int) - 18446744073709551616

/-- Modelled from the spec: inverse of `DataKey.marshal` (pb.DataKey.Unmarshal
is likewise outside this slice).  Fails on truncated or trailing bytes. -/
def DataKey.unmarshal (b : List Nat) : Except Err DataKey :=
  match readBE 8 b with
  | none => .error .decodeFailure
  | some (idN, r1) =>
    match readBE 8 r1 with
    | none => .error .decodeFailure
    | some (cN, r2) =>
      match readLenPrefixed r2 with
      | none => .error .decodeFailure
      | some (d, r3) =>
        match readLenPrefixed r3 with
        | none => .error .decodeFailure
        | some (ivb, r4) =>
          if r4 = [] then .ok ⟨idN, d, ivb, decodeInt64 cN⟩ else .error .decodeFailure

theorem DataKey.marshal_length (k : DataKey) :
    k.marshal.length = 24 + k.data.length + k.iv.length := by
  simp [DataKey.marshal, toBytesBE_length]
  omega

theorem readBE_append {w : Nat} {a : List Nat} (rest : List Nat) (ha : a.length = w) :
    readBE w (a ++ rest) = some (fromBytesBE a, rest) := by
  subst ha
  unfold readBE
  rw [if_pos (by simp), List.take_left, List.drop_left]

theorem readBE_toBytesBE {x w : Nat} (rest : List Nat) (hx : x < 256 ^ w) :
    readBE w (toBytesBE w x ++ rest) = some (x, rest) := by
  rw [readBE_append rest (toBytesBE_length w x), fromBytesBE_toBytesBE_of_lt hx]

theorem readLenPrefixed_append {d : List Nat} (rest : List Nat)
    (hd : d.length < 4294967296) :
    readLenPrefixed (toBytesBE 4 (d.length % 4294967296) ++ (d ++ rest)) =
      some (d, rest) := by
  have h4 : (4294967296 : Nat) = 256 ^ 4 := by norm_num
  rw [Nat.mod_eq_of_lt hd]
  unfold readLenPrefixed
  rw [readBE_toBytesBE (d ++ rest) (h4 ▸ hd)]
  dsimp only
  rw [if_pos (by simp), List.take_left, List.drop_left]

theorem decodeInt64_roundtrip {x : Int}
    (hlo : -9223372036854775808 ≤ x) (hhi : x < 9223372036854775808) :
    decodeInt64 ((x % 18446744073709551616).toNat) = x := by
  unfold decodeInt64
  split <;> omega

theorem DataKey.unmarshal_marshal (k : DataKey)
    (hid : k.keyId < 18446744073709551616)
    (hlo : -9223372036854775808 ≤ k.createdAt)
    (hhi : k.createdAt < 9223372036854775808)
    (hd : k.data.length < 4294967296)
    (hiv : k.iv.length < 4294967296) :
    DataKey.unmarshal k.marshal = .ok k := by
  have h8 : (18446744073709551616 : Nat) = 256 ^ 8 := by norm_num
  have hidm : k.keyId % 18446744073709551616 = k.keyId := Nat.mod_eq_of_lt hid
  have hcm : (k.createdAt % 18446744073709551616).toNat < 256 ^ 8 := by
    rw [← h8]; omega
  unfold DataKey.marshal DataKey.unmarshal
  simp only [List.append_assoc]
  rw [hidm, readBE_toBytesBE _ (h8 ▸ hid)]
  dsimp only
  rw [readBE_toBytesBE _ hcm]
  dsimp only
  rw [readLenPrefixed_append _ hd]
  dsimp only
  rw [← List.append_nil (toBytesBE 4 (k.iv.length % 4294967296) ++ k.iv),
    List.append_assoc, readLenPrefixed_append [] hiv]
  dsimp only
  simp [decodeInt64_roundtrip hlo hhi]

/-- Go os.File: content plus a cursor; `writable` records whether the file
was opened with write access (y.ReadOnly clears it). -/
structure GoFile where
  content : List Nat
  pos : Nat
  writable : Bool
  deriving DecidableEq, Repr

/-- One call to os.File.Read with a buffer of size `n` on a regular file:
a read with an empty buffer returns no bytes and no error; a read at or past
the end of the file returns (0, io.EOF); otherwise it returns the up-to-`n`
available bytes with a nil error, even when fewer than `n` bytes remain. -/
def GoFile.read (f : GoFile) (n : Nat) : Except Err (List Nat × GoFile) :=
  if n = 0 then .ok ([], f)
  else if f.content.length ≤ f.pos then .error .eof
  else .ok ((f.content.drop f.pos).take n,
            { f with pos := min (f.pos + n) f.content.length })

/-- os.File.Write at the end-of-file cursor (the registry keeps its handle at
EOF after the initial load, so every write is an append).  Writing through a
handle without write access fails, as the OS rejects it. -/
def GoFile.write (f : GoFile) (bytes : List Nat) : Except Err GoFile :=
  if f.writable then
    .ok { f with content := f.content ++ bytes, pos := f.content.length + bytes.length }
  else .error .invalidArgument

/-- The Options fields consumed by the key registry.  The rotation duration
is in nanoseconds, like Go's time.Duration. -/
structure Options where
  readOnly : Bool
  encryptionKey : List Nat
  encryptionKeyRotationDuration : Int
  deriving DecidableEq, Repr

/-- The dataKeys map: modelled as an association list where an insert
prepends and a lookup takes the first match, giving Go-map overwrite
semantics. -/
def lookupKey : List (Nat × DataKey) → Nat → Option DataKey
  | [], _ => none
  | (k, v) :: rest, id => if k = id then some v else lookupKey rest id

/-- KeyRegistry: in-memory key index, rotation bookkeeping, the open file
handle (`none` models a nil *os.File) and the options. -/
structure KeyRegistry where
  dataKeys : List (Nat × DataKey)
  lastCreated : Int
  nextKeyID : Nat
  fp : Option GoFile
  opt : Options
  deriving DecidableEq, Repr

/-- newKeyRegistry: empty map, zero counters, nil file handle. -/
def newKeyRegistry (opt : Options) : KeyRegistry :=
  { dataKeys := [], lastCreated := 0, nextKeyID := 0, fp := none, opt := opt }

/-- The sanity marker bytes of "Hello Badger". -/
def sanityText : List Nat := [72, 101, 108, 108, 111, 32, 66, 97, 100, 103, 101, 114]

/-- keyRegistryIterator: the storage key, the shared file cursor and the
8-byte length/CRC scratch buffer (whose stale contents survive a short
read, exactly as the Go array field does). -/
structure KeyRegistryIterator where
  encryptionKey : List Nat
  fp : GoFile
  lenCrcBuf : List Nat
  deriving DecidableEq, Repr

/-- keyRegistryIterator.Next.  Reads the 8-byte length/CRC header (a short
read leaves stale bytes in the tail of lenCrcBuf and is not detected, since
the byte count returned by Read is ignored), then the payload into a
zero-filled buffer of the declared length, verifies the Castagnoli CRC,
unmarshals, and decrypts the key material when a storage key is configured.
io.EOF from either Read is converted to a clean (nil, nil) end by isEOF. -/
def keyRegistryIteratorNext (ks : Keystream) (it : KeyRegistryIterator) :
    Except Err (Option DataKey) × KeyRegistryIterator :=
  match it.fp.read 8 with
  | .error _ => (.ok none, it)
  | .ok (got, fp1) =>
    let buf := got ++ it.lenCrcBuf.drop got.length
    let l := fromBytesBE (buf.take 4)
    let it1 : KeyRegistryIterator := { it with fp := fp1, lenCrcBuf := buf }
    match fp1.read l with
    | .error _ => (.ok none, it1)
    | .ok (dgot, fp2) =>
      let data := dgot ++ List.replicate (l - dgot.length) 0
      let it2 : KeyRegistryIterator := { it1 with fp := fp2 }
      if crc32C data ≠ fromBytesBE ((buf.drop 4).take 4) then
        (.error .badChecksum, it2)
      else
        match DataKey.unmarshal data with
        | .error e => (.error e, it2)
        | .ok dk =>
          if it.encryptionKey ≠ [] then
            match XORBlock ks dk.data it.encryptionKey dk.iv with
            | .error e => (.error e, it2)
            | .ok d => (.ok (some { dk with data := d }), it2)
          else (.ok (some dk), it2)

/-- isValidRegistry: read the 16-byte header IV and the sanity marker (both
buffers are zero-filled and may be only partially overwritten by a short
read), decrypt the marker when a storage key is configured, and compare it
with the known plaintext. -/
def isValidRegistry (ks : Keystream) (encryptionKey : List Nat) (fp : GoFile) :
    Except Err GoFile :=
  match fp.read 16 with
  | .error _ => .error .eof
  | .ok (ivGot, fp1) =>
    let iv := ivGot ++ List.replicate (16 - ivGot.length) 0
    match fp1.read 12 with
    | .error _ => .error .eof
    | .ok (sGot, fp2) =>
      let eSanity := sGot ++ List.replicate (12 - sGot.length) 0
      if encryptionKey ≠ [] then
        match XORBlock ks eSanity encryptionKey iv with
        | .error e => .error e
        | .ok dec => if dec = sanityText then .ok fp2 else .error .keyMismatch
      else
        if eSanity = sanityText then .ok fp2 else .error .keyMismatch

/-- newKeyRegistryIterator: validate the header, then hand out an iterator
positioned after it, with a zeroed length/CRC buffer. -/
def newKeyRegistryIteratorM (ks : Keystream) (fp : GoFile) (encryptionKey : List Nat) :
    Except Err KeyRegistryIterator :=
  match isValidRegistry ks encryptionKey fp with
  | .error e => .error e
  | .ok fp2 => .ok { encryptionKey := encryptionKey, fp := fp2, lenCrcBuf := List.replicate 8 0 }

/-- Loop body of readKeyRegistry for one decoded DataKey: push nextKeyID up
to the maximum key ID seen, push lastCreated up to the maximum creation
timestamp seen, then store the key in the map -- under the (possibly just
updated) nextKeyID, not under its own ID. -/
def readKeyRegistryStep (kr : KeyRegistry) (dk : DataKey) : KeyRegistry :=
  let next := if dk.keyId > kr.nextKeyID then dk.keyId else kr.nextKeyID
  let last := if dk.createdAt > kr.lastCreated then dk.createdAt else kr.lastCreated
  { kr with nextKeyID := next, lastCreated := last, dataKeys := (next, dk) :: kr.dataKeys }

/-- The readKeyRegistry loop, folded over the sequence of DataKeys the
iterator decodes from the file. -/
def readKeyRegistryFold (opt : Options) (records : List DataKey) : KeyRegistry :=
  records.foldl readKeyRegistryStep (newKeyRegistry opt)

/-- File-level readKeyRegistry loop: pull records off the iterator until a
clean end or an error, folding each into the registry.  The fuel argument
bounds the number of iterations; callers pass one more than the file size,
which suffices because each decoded record consumes at least one byte. -/
def readKeyRegistryLoop (ks : Keystream) (kr : KeyRegistry)
    (it : KeyRegistryIterator) : Nat → Except Err (KeyRegistry × GoFile)
  | 0 => .ok (kr, it.fp)
  | fuel + 1 =>
    match keyRegistryIteratorNext ks it with
    | (.ok none, it2) => .ok (kr, it2.fp)
    | (.ok (some dk), it2) => readKeyRegistryLoop ks (readKeyRegistryStep kr dk) it2 fuel
    | (.error e, _) => .error e

/-- readKeyRegistry: build the registry struct by replaying the file. -/
def readKeyRegistry (ks : Keystream) (fp : GoFile) (opt : Options) :
    Except Err (KeyRegistry × GoFile) :=
  match newKeyRegistryIteratorM ks fp opt.encryptionKey with
  | .error e => .error e
  | .ok it => readKeyRegistryLoop ks (newKeyRegistry opt) it (fp.content.length + 1)

/-- storeDataKey's in-place xor helper applied to the record: a no-op without
a storage key; otherwise it overwrites k.Data with the XORBlock result.  On
an XORBlock error the Go multiple assignment still stores the nil result in
k.Data before returning the error. -/
def xorDataKey (ks : Keystream) (storageKey : List Nat) (k : DataKey) :
    Except Err Unit × DataKey :=
  if storageKey = [] then (.ok (), k)
  else
    match XORBlock ks k.data storageKey k.iv with
    | .ok d => (.ok (), { k with data := d })
    | .error e => (.error e, { k with data := [] })

/-- storeDataKey: encrypt the key material in place, marshal the record
(pb Marshal cannot fail for this message and is modelled as total), write the
4-byte big-endian length and 4-byte big-endian Castagnoli CRC followed by the
payload into the buffer, then decrypt the material back in place.  Returns
the buffered bytes (or the error) together with the final state of `k`. -/
def storeDataKey (ks : Keystream) (storageKey : List Nat) (k : DataKey) :
    Except Err (List Nat) × DataKey :=
  match xorDataKey ks storageKey k with
  | (.error e, k1) => (.error e, k1)
  | (.ok _, k1) =>
    let data := k1.marshal
    let lenCrcBuf := toBytesBE 4 (data.length % 4294967296) ++ toBytesBE 4 (crc32C data)
    match xorDataKey ks storageKey k1 with
    | (.error e, k2) => (.error e, k2)
    | (.ok _, k2) => (.ok (lenCrcBuf ++ data), k2)

/-- KeyRegistry.dataKey: ID 0 is the plaintext sentinel; other IDs must be in
the map. -/
def KeyRegistry.dataKey (kr : KeyRegistry) (id : Nat) : Except Err (Option DataKey) :=
  if id = 0 then .ok none
  else
    match lookupKey kr.dataKeys id with
    | none => .error .invalidDataKeyID
    | some dk => .ok (some dk)

/-- KeyRegistry.latestDataKey.  `nowNs` is the current time in nanoseconds
since the epoch; `ivRes` and `randRes` are the results of y.GenerateIV and
crypto/rand.Read.  Without a storage key it returns the nil key.  If less
than the rotation duration has elapsed since lastCreated it returns the map
entry at nextKeyID.  Otherwise it increments nextKeyID, generates the new
key, serialises it via storeDataKey, appends the bytes through the file
handle, restores the plaintext material, and publishes the key. -/
def latestDataKey (ks : Keystream) (kr : KeyRegistry) (nowNs : Int)
    (ivRes randRes : Except Err (List Nat)) :
    Except Err (Option DataKey) × KeyRegistry :=
  if kr.opt.encryptionKey = [] then (.ok none, kr)
  else if nowNs - kr.lastCreated * 1000000000 < kr.opt.encryptionKeyRotationDuration then
    (.ok (lookupKey kr.dataKeys kr.nextKeyID), kr)
  else
    let nextId := kr.nextKeyID + 1
    let kr1 : KeyRegistry := { kr with nextKeyID := nextId }
    match ivRes with
    | .error e => (.error e, kr1)
    | .ok iv =>
      match randRes with
      | .error e => (.error e, kr1)
      | .ok k =>
        let dk : DataKey := { keyId := nextId, data := k, iv := iv,
                              createdAt := nowNs / 1000000000 }
        match storeDataKey ks kr.opt.encryptionKey dk with
        | (.error e, _) => (.error e, kr1)
        | (.ok bytes, _) =>
          match kr1.fp with
          | none => (.error .invalidArgument, kr1)
          | some f =>
            match f.write bytes with
            | .error e => (.error e, kr1)
            | .ok f2 =>
              let dk2 : DataKey := { dk with data := k }
              (.ok (some dk2),
               { kr1 with fp := some f2, lastCreated := dk2.createdAt,
                          dataKeys := (nextId, dk2) :: kr1.dataKeys })

/-- KeyRegistry.Close: closing a registry whose handle is nil (read-only open
of a missing file) fails with os.ErrInvalid. -/
def KeyRegistry.close (kr : KeyRegistry) : Except Err Unit :=
  match kr.fp with
  | none => .error .invalidArgument
  | some _ => .ok ()

/-- Body loop of WriteKeyRegistry: serialise every data key of the map via
storeDataKey, in map-iteration order, concatenating the record bytes. -/
def writeAllDataKeys (ks : Keystream) (storageKey : List Nat) :
    List (Nat × DataKey) → Except Err (List Nat)
  | [] => .ok []
  | (_, k) :: rest =>
    match storeDataKey ks storageKey k with
    | (.error e, _) => .error e
    | (.ok bytes, _) =>
      match writeAllDataKeys ks storageKey rest with
      | .error e => .error e
      | .ok more => .ok (bytes ++ more)

/-- WriteKeyRegistry: build the whole registry file (header IV, sanity
marker encrypted when a storage key is configured, then every data key via
storeDataKey in map-iteration order) and atomically replace the registry
file with it.  Returns the new file content. -/
def WriteKeyRegistry (ks : Keystream) (reg : KeyRegistry) (opt : Options)
    (ivRes : Except Err (List Nat)) : Except Err (List Nat) :=
  match ivRes with
  | .error e => .error e
  | .ok iv =>
    let eSanityRes : Except Err (List Nat) :=
      if opt.encryptionKey ≠ [] then XORBlock ks sanityText opt.encryptionKey iv
      else .ok sanityText
    match eSanityRes with
    | .error e => .error e
    | .ok eSanity =>
      match writeAllDataKeys ks opt.encryptionKey reg.dataKeys with
      | .error e => .error e
      | .ok body => .ok (iv ++ eSanity ++ body)

/-- OpenKeyRegistry.  `fs` is the registry file's content, or `none` when the
file does not exist.  A missing file in read-only mode yields a fresh empty
registry with a nil handle and touches no file; otherwise a missing file is
first created through WriteKeyRegistry and reopened; an existing file is
opened (without write access when read-only) and replayed.  Returns the
registry together with the resulting file-system state. -/
def OpenKeyRegistry (ks : Keystream) (opt : Options) (fs : Option (List Nat))
    (ivRes : Except Err (List Nat)) :
    Except Err (KeyRegistry × Option (List Nat)) :=
  match fs with
  | none =>
    if opt.readOnly then .ok (newKeyRegistry opt, none)
    else
      match WriteKeyRegistry ks (newKeyRegistry opt) opt ivRes with
      | .error e => .error e
      | .ok content =>
        match readKeyRegistry ks { content := content, pos := 0, writable := true } opt with
        | .error e => .error e
        | .ok (kr, fp2) => .ok ({ kr with fp := some fp2 }, some content)
  | some content =>
    match readKeyRegistry ks { content := content, pos := 0, writable := !opt.readOnly } opt with
    | .error e => .error e
    | .ok (kr, fp2) => .ok ({ kr with fp := some fp2 }, some content)

/-! ## Helper lemmas about storeDataKey -/

/-- The encrypted form of a data key: the record as it is serialised to disk
(key material XORed with the keystream derived from the storage key and the
record's own IV; identity when no storage key is configured). -/
def encDataKey (ks : Keystream) (storageKey : List Nat) (k : DataKey) : DataKey :=
  if storageKey = [] then k
  else { k with data := xorKeystream ks storageKey k.iv 0 k.data }

theorem encDataKey_keyId (ks : Keystream) (storageKey : List Nat) (k : DataKey) :
    (encDataKey ks storageKey k).keyId = k.keyId := by
  unfold encDataKey; split <;> rfl

theorem encDataKey_iv (ks : Keystream) (storageKey : List Nat) (k : DataKey) :
    (encDataKey ks storageKey k).iv = k.iv := by
  unfold encDataKey; split <;> rfl

theorem encDataKey_createdAt (ks : Keystream) (storageKey : List Nat) (k : DataKey) :
    (encDataKey ks storageKey k).createdAt = k.createdAt := by
  unfold encDataKey; split <;> rfl

theorem encDataKey_data_length (ks : Keystream) (storageKey : List Nat) (k : DataKey) :
    (encDataKey ks storageKey k).data.length = k.data.length := by
  unfold encDataKey; split
  · rfl
  · exact xorKeystream_length ks storageKey k.iv 0 k.data

theorem validKeyLength_ne_nil {key : List Nat} (h : validKeyLength key) : key ≠ [] := by
  intro he
  rw [he] at h
  rcases h with h | h | h <;> simp at h

/-- On a valid storage-key configuration storeDataKey succeeds, produces the
length/CRC header followed by the encrypted marshalled record, and leaves the
record's in-memory state exactly as it was. -/
theorem storeDataKey_eq_of_valid (ks : Keystream) (storageKey : List Nat) (k : DataKey)
    (h : storageKey = [] ∨ (validKeyLength storageKey ∧ k.iv.length = 16)) :
    storeDataKey ks storageKey k =
      (.ok ((toBytesBE 4 ((encDataKey ks storageKey k).marshal.length % 4294967296) ++
             toBytesBE 4 (crc32C (encDataKey ks storageKey k).marshal)) ++
            (encDataKey ks storageKey k).marshal), k) := by
  rcases h with h | ⟨hk, hiv⟩
  · subst h
    simp [storeDataKey, xorDataKey, encDataKey]
  · have hne : storageKey ≠ [] := validKeyLength_ne_nil hk
    obtain ⟨id, d, kiv, c⟩ := k
    simp only [DataKey.iv] at hiv
    simp [storeDataKey, xorDataKey, XORBlock, encDataKey, hne, hk, hiv,
      xorKeystream_xorKeystream, List.append_assoc]

/-! ## Claim C8: dataKey lookup semantics -/

/-- Claim C8: dataKey 0 is always the "no key" sentinel with no error; a
non-zero ID absent from the map fails with ErrInvalidDataKeyID; an ID present
in the map returns the stored DataKey. -/
theorem dataKey_spec (kr : KeyRegistry) (i j : Nat) (dk : DataKey)
    (hi : i ≠ 0) (hni : lookupKey kr.dataKeys i = none)
    (hj : j ≠ 0) (hsj : lookupKey kr.dataKeys j = some dk) :
    kr.dataKey 0 = .ok none ∧
    kr.dataKey i = .error .invalidDataKeyID ∧
    kr.dataKey j = .ok (some dk) := by
  refine ⟨by simp [KeyRegistry.dataKey], ?_, ?_⟩
  · simp [KeyRegistry.dataKey, hi, hni]
  · simp [KeyRegistry.dataKey, hj, hsj]

/-- Sample keystream for witnesses: distinct non-zero bytes. -/
def ksSample : Keystream := fun _ _ i => (i + 7) % 256

/-- A 16-byte all-zero storage key (a valid AES-128 key). -/
def key16 : List Nat := List.replicate 16 0

/-- A 16-byte all-zero IV. -/
def iv16 : List Nat := List.replicate 16 0

/-- Sample data key stored under ID 5. -/
def dkSample : DataKey :=
  { keyId := 5, data := [1, 2, 3], iv := List.replicate 16 2, createdAt := 42 }

/-- Sample registry with one key under ID 5. -/
def krSample : KeyRegistry :=
  { dataKeys := [(5, dkSample)], lastCreated := 42, nextKeyID := 5,
    fp := some { content := [], pos := 0, writable := true },
    opt := { readOnly := false, encryptionKey := key16,
             encryptionKeyRotationDuration := 10000000000 } }

theorem dataKey_spec_witness :
    krSample.dataKey 0 = .ok none ∧
    krSample.dataKey 7 = .error .invalidDataKeyID ∧
    krSample.dataKey 5 = .ok (some dkSample) :=
  dataKey_spec krSample 7 5 dkSample (by decide) rfl (by decide) rfl

/-! ## Claim C2: XORReader writes the untransformed bytes (code bug) -/

/-- Claim C2 (code bug): for every keystream, every valid AES key length and
every block-size IV, XORReader writes back exactly its input bytes: the
transformed chunk is computed into bufOut but the Write call sends bufIn, so
the output never equals the XORBlock transform unless the keystream is zero
on the whole input. -/
theorem XORReader_writes_untransformed (ks : Keystream) (input key iv : List Nat)
    (hk : validKeyLength key) (hiv : iv.length = 16) :
    XORReader ks input key iv = .ok input := by
  unfold XORReader
  rw [if_neg (not_not_intro hk), if_neg (by simp [hiv])]
  exact congrArg _ (xorReaderLoop_eq_input ks key iv input.length input 0 le_rfl)

theorem XORReader_writes_untransformed_witness :
    XORReader ksSample [0] key16 iv16 = .ok [0] :=
  XORReader_writes_untransformed ksSample [0] key16 iv16 (by decide) (by decide)

/-! ## Claim C9: storeDataKey leaves the in-memory material plaintext -/

/-- Claim C9: for an empty or valid-length storage key (and a block-size IV
when encryption applies), storeDataKey returns the in-memory DataKey with its
key_material equal to the plaintext value it had before the call; only the
serialised buffer carries the encrypted form. -/
theorem storeDataKey_preserves_plaintext (ks : Keystream) (storageKey : List Nat)
    (k : DataKey)
    (h : storageKey = [] ∨ (validKeyLength storageKey ∧ k.iv.length = 16)) :
    (storeDataKey ks storageKey k).2.data = k.data := by
  rw [storeDataKey_eq_of_valid ks storageKey k h]

theorem storeDataKey_preserves_plaintext_witness :
    (storeDataKey ksSample key16 dkSample).2.data = dkSample.data :=
  storeDataKey_preserves_plaintext ksSample key16 dkSample
    (Or.inr ⟨by decide, by decide⟩)

/-! ## Claim C10: read-only open of a missing registry file -/

/-- Claim C10: when the registry file does not exist and the read-only flag
is set, OpenKeyRegistry succeeds with a fresh empty registry (no keys,
next_key_id 0), creates no file, and leaves the file handle nil, so a
subsequent Close fails rather than succeeding. -/
theorem openKeyRegistry_readonly_missing (ks : Keystream) (opt : Options)
    (ivRes : Except Err (List Nat)) (hro : opt.readOnly = true) :
    OpenKeyRegistry ks opt none ivRes = .ok (newKeyRegistry opt, none) ∧
    (newKeyRegistry opt).dataKeys = [] ∧
    (newKeyRegistry opt).nextKeyID = 0 ∧
    (newKeyRegistry opt).fp = none ∧
    (newKeyRegistry opt).close = .error .invalidArgument := by
  refine ⟨?_, rfl, rfl, rfl, rfl⟩
  simp [OpenKeyRegistry, hro]

/-- Read-only options used in witnesses and counterexamples. -/
def optRO : Options :=
  { readOnly := true, encryptionKey := key16, encryptionKeyRotationDuration := 10000000000 }

theorem openKeyRegistry_readonly_missing_witness :
    OpenKeyRegistry ksSample optRO none (.ok iv16) = .ok (newKeyRegistry optRO, none) ∧
    (newKeyRegistry optRO).dataKeys = [] ∧
    (newKeyRegistry optRO).nextKeyID = 0 ∧
    (newKeyRegistry optRO).fp = none ∧
    (newKeyRegistry optRO).close = .error .invalidArgument :=
  openKeyRegistry_readonly_missing ksSample optRO (.ok iv16) rfl

/-! ## Claim C5: read-only registries and latestDataKey -/

/-- Claim C5 (amended): latestDataKey on a registry whose handle is nil or
without write access (a read-only open) never inserts a key into the map,
never changes last_created_at and never changes the file; but when encryption
is configured and rotation is due it still increments next_key_id before the
failing append, so next_key_id either keeps its value or grows by one. -/
theorem latestDataKey_readonly (ks : Keystream) (kr : KeyRegistry) (nowNs : Int)
    (ivRes randRes : Except Err (List Nat))
    (hro : kr.fp = none ∨ ∃ f, kr.fp = some f ∧ f.writable = false) :
    (latestDataKey ks kr nowNs ivRes randRes).2.dataKeys = kr.dataKeys ∧
    (latestDataKey ks kr nowNs ivRes randRes).2.lastCreated = kr.lastCreated ∧
    (latestDataKey ks kr nowNs ivRes randRes).2.fp = kr.fp ∧
    ((latestDataKey ks kr nowNs ivRes randRes).2.nextKeyID = kr.nextKeyID ∨
     (latestDataKey ks kr nowNs ivRes randRes).2.nextKeyID = kr.nextKeyID + 1) := by
  unfold latestDataKey
  by_cases h1 : kr.opt.encryptionKey = []
  · simp [h1]
  · rw [if_neg h1]
    by_cases h2 : nowNs - kr.lastCreated * 1000000000 < kr.opt.encryptionKeyRotationDuration
    · simp [h2]
    · rw [if_neg h2]
      cases ivRes with
      | error e => simp
      | ok iv =>
        cases randRes with
        | error e => simp
        | ok k =>
          dsimp only
          rcases hsd : storeDataKey ks kr.opt.encryptionKey
              { keyId := kr.nextKeyID + 1, data := k, iv := iv,
                createdAt := nowNs / 1000000000 } with ⟨r, k2⟩
          cases r with
          | error e => simp
          | ok bytes =>
            rcases hro with hfp | ⟨f, hfp, hw⟩
            · simp [hfp]
            · simp [hfp, GoFile.write, hw]

/-- A read-only registry opened over a missing file, with encryption
configured and rotation immediately due. -/
theorem latestDataKey_readonly_counterexample :
    OpenKeyRegistry ksSample optRO none (.ok iv16) = .ok (newKeyRegistry optRO, none) ∧
    (newKeyRegistry optRO).nextKeyID = 0 ∧
    (latestDataKey ksSample (newKeyRegistry optRO) 20000000000
      (.ok iv16) (.ok key16)).2.nextKeyID = 1 :=
  ⟨rfl, rfl, rfl⟩

theorem latestDataKey_readonly_witness :
    (latestDataKey ksSample (newKeyRegistry optRO) 20000000000
        (.ok iv16) (.ok key16)).2.dataKeys = (newKeyRegistry optRO).dataKeys ∧
    (latestDataKey ksSample (newKeyRegistry optRO) 20000000000
        (.ok iv16) (.ok key16)).2.lastCreated = (newKeyRegistry optRO).lastCreated ∧
    (latestDataKey ksSample (newKeyRegistry optRO) 20000000000
        (.ok iv16) (.ok key16)).2.fp = (newKeyRegistry optRO).fp ∧
    ((latestDataKey ksSample (newKeyRegistry optRO) 20000000000
        (.ok iv16) (.ok key16)).2.nextKeyID = (newKeyRegistry optRO).nextKeyID ∨
     (latestDataKey ksSample (newKeyRegistry optRO) 20000000000
        (.ok iv16) (.ok key16)).2.nextKeyID = (newKeyRegistry optRO).nextKeyID + 1) :=
  latestDataKey_readonly ksSample (newKeyRegistry optRO) 20000000000
    (.ok iv16) (.ok key16) (Or.inl rfl)

/-! ## Claim C3: rotation failure before the disk append -/

/-- Claim C3 (amended): when encryption is configured, rotation is due, and
the rotation path fails before the disk append (IV generation fails, random
key-material generation fails, or record encoding fails), latestDataKey
returns the error with the map, last_created_at and the file handle exactly
as before the call -- but next_key_id has already been incremented by one. -/
theorem latestDataKey_failure_before_append (ks : Keystream) (kr : KeyRegistry)
    (nowNs : Int) (ivRes randRes : Except Err (List Nat)) (iv k : List Nat)
    (henc : ¬ kr.opt.encryptionKey = [])
    (hdue : ¬(nowNs - kr.lastCreated * 1000000000 < kr.opt.encryptionKeyRotationDuration))
    (hfail : ivRes.isOk = false ∨ randRes.isOk = false ∨
      (ivRes = .ok iv ∧ randRes = .ok k ∧
        (storeDataKey ks kr.opt.encryptionKey
          { keyId := kr.nextKeyID + 1, data := k, iv := iv,
            createdAt := nowNs / 1000000000 }).1.isOk = false)) :
    (latestDataKey ks kr nowNs ivRes randRes).1.isOk = false ∧
    (latestDataKey ks kr nowNs ivRes randRes).2 =
      { kr with nextKeyID := kr.nextKeyID + 1 } := by
  unfold latestDataKey
  rw [if_neg henc, if_neg hdue]
  rcases hfail with hf | hf | ⟨hiv, hk, hsd⟩
  · cases ivRes with
    | error e => simp [Except.isOk, Except.toBool]
    | ok iv2 => simp [Except.isOk, Except.toBool] at hf
  · cases ivRes with
    | error e => simp [Except.isOk, Except.toBool]
    | ok iv2 =>
      cases randRes with
      | error e => simp [Except.isOk, Except.toBool]
      | ok k2 => simp [Except.isOk, Except.toBool] at hf
  · rw [hiv, hk]
    dsimp only
    rcases hsd2 : storeDataKey ks kr.opt.encryptionKey
        { keyId := kr.nextKeyID + 1, data := k, iv := iv,
          createdAt := nowNs / 1000000000 } with ⟨r, k2⟩
    rw [hsd2] at hsd
    cases r with
    | error e => simp [Except.isOk, Except.toBool]
    | ok bytes => simp [Except.isOk, Except.toBool] at hsd

/-- Writable registry with encryption configured and rotation due. -/
def krC3 : KeyRegistry :=
  { dataKeys := [], lastCreated := 0, nextKeyID := 0,
    fp := some { content := [], pos := 0, writable := true },
    opt := { readOnly := false, encryptionKey := key16,
             encryptionKeyRotationDuration := 10000000000 } }

/-- IV generation fails before any append: the call errors, the map and
last_created_at are untouched, yet next_key_id is already incremented. -/
theorem latestDataKey_failure_counterexample :
    krC3.nextKeyID = 0 ∧
    (latestDataKey ksSample krC3 20000000000 (.error .ivGenFailure) (.ok key16)).1 =
      .error .ivGenFailure ∧
    (latestDataKey ksSample krC3 20000000000 (.error .ivGenFailure) (.ok key16)).2.nextKeyID
      = 1 :=
  ⟨rfl, rfl, rfl⟩

theorem latestDataKey_failure_before_append_witness :
    (latestDataKey ksSample krC3 20000000000 (.error .ivGenFailure) (.ok key16)).1.isOk
      = false ∧
    (latestDataKey ksSample krC3 20000000000 (.error .ivGenFailure) (.ok key16)).2 =
      { krC3 with nextKeyID := krC3.nextKeyID + 1 } :=
  latestDataKey_failure_before_append ksSample krC3 20000000000
    (.error .ivGenFailure) (.ok key16) iv16 key16 (by decide) (by decide)
    (Or.inl rfl)

/-! ## Claim C7: the rotation gate -/

/-- Claim C7: with a non-empty (valid-length) storage key and the current key
present in the map under nextKeyID, a call within the rotation period returns
that same key and leaves the registry unchanged (so two such calls return the
same key ID), while a call at or past the rotation period returns a freshly
created key whose ID is strictly greater. -/
theorem latestDataKey_rotation_gate (ks : Keystream) (kr : KeyRegistry) (dk : DataKey)
    (tA tB : Int) (iv k : List Nat) (f : GoFile) (r1 r2 : Except Err (List Nat))
    (henc : ¬ kr.opt.encryptionKey = [])
    (hkey : validKeyLength kr.opt.encryptionKey)
    (hlook : lookupKey kr.dataKeys kr.nextKeyID = some dk)
    (hid : dk.keyId = kr.nextKeyID)
    (hA : tA - kr.lastCreated * 1000000000 < kr.opt.encryptionKeyRotationDuration)
    (hB : ¬(tB - kr.lastCreated * 1000000000 < kr.opt.encryptionKeyRotationDuration))
    (hiv : iv.length = 16)
    (hfp : kr.fp = some f) (hw : f.writable = true) :
    latestDataKey ks kr tA r1 r2 = (.ok (some dk), kr) ∧
    (latestDataKey ks kr tB (.ok iv) (.ok k)).1 =
      .ok (some { keyId := kr.nextKeyID + 1, data := k, iv := iv,
                  createdAt := tB / 1000000000 }) ∧
    dk.keyId < kr.nextKeyID + 1 := by
  refine ⟨?_, ?_, by omega⟩
  · unfold latestDataKey
    rw [if_neg henc, if_pos hA, hlook]
  · unfold latestDataKey
    rw [if_neg henc, if_neg hB]
    dsimp only
    rw [storeDataKey_eq_of_valid ks kr.opt.encryptionKey _ (Or.inr ⟨hkey, hiv⟩)]
    simp [hfp, GoFile.write, hw]

/-- Current key for the rotation-gate witness. -/
def dkW : DataKey :=
  { keyId := 1, data := [4, 5, 6], iv := List.replicate 16 9, createdAt := 100 }

/-- Registry holding dkW as the current key, created at time 100s, with a
10-second rotation period. -/
def krC7 : KeyRegistry :=
  { dataKeys := [(1, dkW)], lastCreated := 100, nextKeyID := 1,
    fp := some { content := [], pos := 0, writable := true },
    opt := { readOnly := false, encryptionKey := key16,
             encryptionKeyRotationDuration := 10000000000 } }

theorem latestDataKey_rotation_gate_witness :
    latestDataKey ksSample krC7 105000000000 (.ok iv16) (.ok key16) =
      (.ok (some dkW), krC7) ∧
    (latestDataKey ksSample krC7 120000000000 (.ok iv16) (.ok key16)).1 =
      .ok (some { keyId := 2, data := key16, iv := iv16, createdAt := 120 }) ∧
    dkW.keyId < 2 :=
  latestDataKey_rotation_gate ksSample krC7 dkW 105000000000 120000000000
    iv16 key16 { content := [], pos := 0, writable := true } (.ok iv16) (.ok key16)
    (by decide) (by decide) rfl rfl (by decide) (by decide) (by decide) rfl rfl

/-! ## Claim C1: readKeyRegistry state reconstruction -/

theorem readKeyRegistryStep_nextKeyID (kr : KeyRegistry) (dk : DataKey) :
    (readKeyRegistryStep kr dk).nextKeyID = max kr.nextKeyID dk.keyId := by
  simp only [readKeyRegistryStep]
  split <;> omega

theorem readKeyRegistryStep_lastCreated (kr : KeyRegistry) (dk : DataKey) :
    (readKeyRegistryStep kr dk).lastCreated = max kr.lastCreated dk.createdAt := by
  simp only [readKeyRegistryStep]
  split <;> omega

theorem readKeyRegistryStep_dataKeys (kr : KeyRegistry) (dk : DataKey) :
    (readKeyRegistryStep kr dk).dataKeys = (max kr.nextKeyID dk.keyId, dk) :: kr.dataKeys := by
  have hmax : (if dk.keyId > kr.nextKeyID then dk.keyId else kr.nextKeyID) =
      max kr.nextKeyID dk.keyId := by split <;> omega
  simp only [readKeyRegistryStep, hmax]

theorem foldl_step_nextKeyID (records : List DataKey) :
    ∀ kr : KeyRegistry, (records.foldl readKeyRegistryStep kr).nextKeyID =
      (records.map DataKey.keyId).foldl max kr.nextKeyID := by
  induction records with
  | nil => intro kr; rfl
  | cons d rest ih =>
    intro kr
    simp only [List.foldl_cons, List.map_cons]
    rw [ih, readKeyRegistryStep_nextKeyID]

theorem foldl_step_lastCreated (records : List DataKey) :
    ∀ kr : KeyRegistry, (records.foldl readKeyRegistryStep kr).lastCreated =
      (records.map DataKey.createdAt).foldl max kr.lastCreated := by
  induction records with
  | nil => intro kr; rfl
  | cons d rest ih =>
    intro kr
    simp only [List.foldl_cons, List.map_cons]
    rw [ih, readKeyRegistryStep_lastCreated]

theorem foldl_step_lookup_other (records : List DataKey) :
    ∀ (kr : KeyRegistry) (id : Nat),
      (∀ dk ∈ records, kr.nextKeyID ≤ dk.keyId) →
      records.Pairwise (fun a b => a.keyId < b.keyId) →
      (∀ dk ∈ records, id ≠ dk.keyId) →
      lookupKey (records.foldl readKeyRegistryStep kr).dataKeys id =
        lookupKey kr.dataKeys id := by
  induction records with
  | nil => intro kr id _ _ _; rfl
  | cons d rest ih =>
    intro kr id hinv hp hid
    have hpc := List.pairwise_cons.mp hp
    have hmax : max kr.nextKeyID d.keyId = d.keyId :=
      max_eq_right (hinv d (List.mem_cons_self d rest))
    simp only [List.foldl_cons]
    rw [ih (readKeyRegistryStep kr d) id
        (fun dk hdk => by
          rw [readKeyRegistryStep_nextKeyID, hmax]
          exact le_of_lt (hpc.1 dk hdk))
        hpc.2
        (fun dk hdk => hid dk (List.mem_cons_of_mem d hdk))]
    rw [readKeyRegistryStep_dataKeys, hmax]
    have hne : d.keyId ≠ id := (hid d (List.mem_cons_self d rest)).symm
    simp [lookupKey, hne]

theorem foldl_step_lookup_self (records : List DataKey) :
    ∀ kr : KeyRegistry,
      (∀ dk ∈ records, kr.nextKeyID ≤ dk.keyId) →
      records.Pairwise (fun a b => a.keyId < b.keyId) →
      ∀ dk ∈ records,
        lookupKey (records.foldl readKeyRegistryStep kr).dataKeys dk.keyId = some dk := by
  induction records with
  | nil => intro kr _ _ dk hdk; exact absurd hdk (List.not_mem_nil dk)
  | cons d rest ih =>
    intro kr hinv hp dk hdk
    have hpc := List.pairwise_cons.mp hp
    have hmax : max kr.nextKeyID d.keyId = d.keyId :=
      max_eq_right (hinv d (List.mem_cons_self d rest))
    have hrest : ∀ dk2 ∈ rest, (readKeyRegistryStep kr d).nextKeyID ≤ dk2.keyId := by
      intro dk2 hdk2
      rw [readKeyRegistryStep_nextKeyID, hmax]
      exact le_of_lt (hpc.1 dk2 hdk2)
    rcases List.mem_cons.mp hdk with hhd | htl
    · subst hhd
      simp only [List.foldl_cons]
      rw [foldl_step_lookup_other rest (readKeyRegistryStep kr dk) dk.keyId hrest hpc.2
          (fun dk2 hdk2 => Nat.ne_of_lt (hpc.1 dk2 hdk2))]
      rw [readKeyRegistryStep_dataKeys, hmax]
      simp [lookupKey]
    · simp only [List.foldl_cons]
      exact ih (readKeyRegistryStep kr d) hrest hpc.2 dk htl

/-- Claim C1 (amended): after replaying a list of decoded records,
next_key_id is the maximum decoded key ID (0 when there are none) and
last_created_at is the maximum of 0 and the decoded creation timestamps; and
provided the decoded key IDs appear in strictly increasing order -- which the
append-only writer guarantees -- every decoded record is stored in the map
under its own key ID.  (Without the ordering hypothesis the map clause fails,
because the code stores each record under nextKeyID, not under the record's
own ID; and a negative maximum timestamp is replaced by the initial 0.) -/
theorem readKeyRegistry_fold_spec (opt : Options) (records : List DataKey)
    (hinc : records.Pairwise (fun a b => a.keyId < b.keyId)) :
    (readKeyRegistryFold opt records).nextKeyID =
      (records.map DataKey.keyId).foldl max 0 ∧
    (readKeyRegistryFold opt records).lastCreated =
      (records.map DataKey.createdAt).foldl max 0 ∧
    ∀ dk ∈ records,
      lookupKey (readKeyRegistryFold opt records).dataKeys dk.keyId = some dk := by
  refine ⟨?_, ?_, ?_⟩
  · unfold readKeyRegistryFold
    rw [foldl_step_nextKeyID]
    rfl
  · unfold readKeyRegistryFold
    rw [foldl_step_lastCreated]
    rfl
  · exact foldl_step_lookup_self records (newKeyRegistry opt)
      (fun dk _ => Nat.zero_le _) hinc

/-- Record with ID 2 decoded before record with ID 1. -/
def dkX : DataKey := { keyId := 2, data := [], iv := [], createdAt := -3 }

/-- Record with ID 1 decoded after record with ID 2. -/
def dkY : DataKey := { keyId := 1, data := [], iv := [], createdAt := -5 }

/-- Options without encryption. -/
def optPlain : Options :=
  { readOnly := false, encryptionKey := [], encryptionKeyRotationDuration := 0 }

/-- With records decoded in the order ID 2 then ID 1, the second record is
stored under nextKeyID = 2 instead of its own ID 1, so looking up key ID 1
finds nothing; and with all created_at values negative, last_created_at stays
at its initial 0 instead of the maximum created_at (-3). -/
theorem readKeyRegistry_fold_counterexample :
    lookupKey (readKeyRegistryFold optPlain [dkX, dkY]).dataKeys dkY.keyId = none ∧
    (readKeyRegistryFold optPlain [dkX, dkY]).lastCreated = 0 :=
  ⟨rfl, rfl⟩

/-- First record of the well-ordered witness replay. -/
def dkA1 : DataKey := { keyId := 1, data := [1], iv := [2], createdAt := 50 }

/-- Second record of the well-ordered witness replay. -/
def dkA2 : DataKey := { keyId := 3, data := [9], iv := [8], createdAt := 60 }

theorem readKeyRegistry_fold_spec_witness :
    (readKeyRegistryFold optPlain [dkA1, dkA2]).nextKeyID =
      ([dkA1, dkA2].map DataKey.keyId).foldl max 0 ∧
    (readKeyRegistryFold optPlain [dkA1, dkA2]).lastCreated =
      ([dkA1, dkA2].map DataKey.createdAt).foldl max 0 ∧
    lookupKey (readKeyRegistryFold optPlain [dkA1, dkA2]).dataKeys dkA1.keyId =
      some dkA1 :=
  ⟨(readKeyRegistry_fold_spec optPlain [dkA1, dkA2] (by decide)).1,
   (readKeyRegistry_fold_spec optPlain [dkA1, dkA2] (by decide)).2.1,
   (readKeyRegistry_fold_spec optPlain [dkA1, dkA2] (by decide)).2.2 dkA1
     (List.mem_cons_self dkA1 [dkA2])⟩

/-! ## Claim C4: iterator Next at end of file -/

theorem GoFile.read_eof {f : GoFile} {n : Nat} (hn : n ≠ 0)
    (h : f.content.length ≤ f.pos) : f.read n = .error .eof := by
  unfold GoFile.read
  rw [if_neg hn, if_pos h]

theorem GoFile.read_ok {f : GoFile} {n : Nat} (hn : n ≠ 0)
    (h : f.pos < f.content.length) :
    f.read n = .ok ((f.content.drop f.pos).take n,
      { f with pos := min (f.pos + n) f.content.length }) := by
  unfold GoFile.read
  rw [if_neg hn, if_neg (not_le.mpr h)]

/-- Claim C4 (amended): reaching EOF with zero bytes of the next record read
is a clean end of sequence (no record, no error, iterator unchanged).  But
EOF inside the 8-byte length/CRC header is NOT a truncation error: the short
read goes unnoticed (the byte count returned by Read is ignored), and
whenever the partially overwritten header parses to a positive length the
subsequent payload read hits EOF with zero bytes, which isEOF converts into
the same clean end, silently dropping the truncated record.  Only EOF inside
the payload (header fully read, at least one payload byte present but fewer
than declared) is never reported as a clean end. -/
theorem next_eof_behaviour (ks : Keystream) (itA itB itC : KeyRegistryIterator)
    (hA : itA.fp.content.length ≤ itA.fp.pos)
    (hBlo : itB.fp.pos < itB.fp.content.length)
    (hBhi : itB.fp.content.length < itB.fp.pos + 8)
    (hBlen : 0 < fromBytesBE ((((itB.fp.content.drop itB.fp.pos).take 8) ++
      itB.lenCrcBuf.drop ((itB.fp.content.drop itB.fp.pos).take 8).length).take 4))
    (hCbuf : itC.lenCrcBuf.length = 8)
    (hClo : itC.fp.pos + 8 < itC.fp.content.length)
    (hChi : itC.fp.content.length < itC.fp.pos + 8 +
      fromBytesBE (((itC.fp.content.drop itC.fp.pos).take 8).take 4)) :
    keyRegistryIteratorNext ks itA = (.ok none, itA) ∧
    (keyRegistryIteratorNext ks itB).1 = .ok none ∧
    (keyRegistryIteratorNext ks itC).1 ≠ .ok none := by
  refine ⟨?_, ?_, ?_⟩
  · unfold keyRegistryIteratorNext
    rw [GoFile.read_eof (by decide) hA]
  · unfold keyRegistryIteratorNext
    rw [GoFile.read_ok (by decide) hBlo]
    dsimp only
    rw [GoFile.read_eof (Nat.pos_iff_ne_zero.mp hBlen) (by dsimp only; omega)]
  · unfold keyRegistryIteratorNext
    rw [GoFile.read_ok (by decide) (by omega)]
    dsimp only
    have hgl : ((itC.fp.content.drop itC.fp.pos).take 8).length = 8 := by
      simp only [List.length_take, List.length_drop]
      omega
    have hdrop8 : itC.lenCrcBuf.drop 8 = [] := by
      rw [← hCbuf]; exact List.drop_length _
    rw [hgl, hdrop8, List.append_nil]
    have hlpos : 0 < fromBytesBE (((itC.fp.content.drop itC.fp.pos).take 8).take 4) := by
      omega
    rw [GoFile.read_ok (Nat.pos_iff_ne_zero.mp hlpos) (by dsimp only; omega)]
    dsimp only
    split
    · simp
    · split
      · simp
      · split
        · split
          · simp
          · simp
        · simp

/-- Iterator exactly at end of file (clean-end witness scenario). -/
def itWA : KeyRegistryIterator :=
  { encryptionKey := [], fp := { content := [], pos := 0, writable := false },
    lenCrcBuf := List.replicate 8 0 }

/-- Iterator over a file whose 4 remaining bytes end inside the 8-byte
length/CRC header (the partial header parses to length 1). -/
def itWB : KeyRegistryIterator :=
  { encryptionKey := [], fp := { content := [0, 0, 0, 1], pos := 0, writable := false },
    lenCrcBuf := List.replicate 8 0 }

/-- Iterator over a record whose header declares a 5-byte payload but whose
file ends after 2 payload bytes (EOF mid-payload). -/
def itWC : KeyRegistryIterator :=
  { encryptionKey := [],
    fp := { content := [0, 0, 0, 5, 0, 0, 0, 0, 1, 2], pos := 0, writable := false },
    lenCrcBuf := List.replicate 8 0 }

/-- A file that ends in the middle of the length/CRC header: Next returns a
clean end of sequence (no record, no error), not a truncation error. -/
theorem next_eof_behaviour_counterexample :
    0 < itWB.fp.content.length ∧ itWB.fp.content.length < 8 ∧
    (keyRegistryIteratorNext ksSample itWB).1 = .ok none :=
  ⟨by decide, by decide, rfl⟩

theorem next_eof_behaviour_witness :
    keyRegistryIteratorNext ksSample itWA = (.ok none, itWA) ∧
    (keyRegistryIteratorNext ksSample itWB).1 = .ok none ∧
    (keyRegistryIteratorNext ksSample itWC).1 ≠ .ok none :=
  next_eof_behaviour ksSample itWA itWB itWC (by decide) (by decide) (by decide)
    (by decide) (by decide) (by decide) (by decide)

/-! ## Claim C6: record codec round-trip -/

theorem take_exact {n : Nat} (l1 l2 : List Nat) (h : l1.length = n) :
    (l1 ++ l2).take n = l1 := by
  subst h; exact List.take_left l1 l2

theorem drop_exact {n : Nat} (l1 l2 : List Nat) (h : l1.length = n) :
    (l1 ++ l2).drop n = l2 := by
  subst h; exact List.drop_left l1 l2

theorem take_self {n : Nat} (l : List Nat) (h : l.length = n) : l.take n = l := by
  subst h; exact List.take_length l

/-- Reducing Next over a file that starts with exactly one well-formed
record: the header is read in full, the payload is read in full, the
checksum matches, and the result is the decode-then-decrypt of the payload. -/
theorem next_exact_record (ks : Keystream) (encKey payload stale : List Nat) (w : Bool)
    (hstale : stale.length = 8) (hp : 0 < payload.length)
    (hpM : payload.length < 4294967296) :
    (keyRegistryIteratorNext ks
      { encryptionKey := encKey,
        fp := { content := (toBytesBE 4 (payload.length % 4294967296) ++
                  toBytesBE 4 (crc32C payload)) ++ payload,
                pos := 0, writable := w },
        lenCrcBuf := stale }).1 =
    (match DataKey.unmarshal payload with
     | .error e => .error e
     | .ok dk =>
       if encKey ≠ [] then
         match XORBlock ks dk.data encKey dk.iv with
         | .error e => .error e
         | .ok d => .ok (some { dk with data := d })
       else .ok (some dk)) := by
  have hA : (toBytesBE 4 (payload.length % 4294967296)).length = 4 := toBytesBE_length _ _
  have hB : (toBytesBE 4 (crc32C payload)).length = 4 := toBytesBE_length _ _
  have h8 : (toBytesBE 4 (payload.length % 4294967296) ++
      toBytesBE 4 (crc32C payload)).length = 8 := by simp [hA, hB]
  have hclen : ((toBytesBE 4 (payload.length % 4294967296) ++
      toBytesBE 4 (crc32C payload)) ++ payload).length = 8 + payload.length := by
    simp [hA, hB]; omega
  unfold keyRegistryIteratorNext
  rw [GoFile.read_ok (by decide) (by dsimp only; rw [hclen]; omega)]
  dsimp only
  rw [List.drop_zero, take_exact _ _ h8, h8]
  have hdrop8 : stale.drop 8 = [] := by rw [← hstale]; exact List.drop_length _
  rw [hdrop8, List.append_nil]
  rw [take_exact _ _ hA]
  have hfA : fromBytesBE (toBytesBE 4 (payload.length % 4294967296)) = payload.length := by
    rw [fromBytesBE_toBytesBE]
    have h4 : (256 : Nat) ^ 4 = 4294967296 := by norm_num
    rw [h4]
    omega
  rw [hfA]
  have hmin8 : (0 + 8) ⊓ ((toBytesBE 4 (payload.length % 4294967296) ++
      toBytesBE 4 (crc32C payload)) ++ payload).length = 8 := by
    rw [hclen]; omega
  rw [hmin8]
  rw [GoFile.read_ok (Nat.pos_iff_ne_zero.mp hp) (by dsimp only; rw [hclen]; omega)]
  dsimp only
  rw [drop_exact _ _ h8, List.take_length, Nat.sub_self, List.replicate_zero,
    List.append_nil]
  rw [drop_exact _ _ hA, take_self _ hB]
  have hfB : fromBytesBE (toBytesBE 4 (crc32C payload)) = crc32C payload := by
    apply fromBytesBE_toBytesBE_of_lt
    have h4 : (256 : Nat) ^ 4 = 4294967296 := by norm_num
    rw [h4]
    exact crc32C_lt payload
  rw [hfB, if_neg (fun hcc => hcc rfl)]
  rcases hu : DataKey.unmarshal payload with e | dk
  · rfl
  · dsimp only
    by_cases hek : encKey ≠ []
    · rw [if_pos hek, if_pos hek]
      rcases hx : XORBlock ks dk.data encKey dk.iv with e | d <;> rfl
    · rw [if_neg hek, if_neg hek]

/-- Claim C6: for every storage key of valid AES length (or the empty key
meaning no encryption) and every well-formed DataKey (block-size IV, fields
within their machine-integer ranges, record small enough for its 32-bit
length header), encoding via storeDataKey and decoding the produced bytes
via the iterator's Next yields a DataKey with byte-identical key material,
IV, key ID and creation timestamp. -/
theorem storeDataKey_next_roundtrip (ks : Keystream) (storageKey : List Nat)
    (dk : DataKey) (stale : List Nat) (w : Bool)
    (hk : storageKey = [] ∨ (validKeyLength storageKey ∧ dk.iv.length = 16))
    (hstale : stale.length = 8)
    (hid : dk.keyId < 18446744073709551616)
    (hclo : -9223372036854775808 ≤ dk.createdAt)
    (hchi : dk.createdAt < 9223372036854775808)
    (hsz : 24 + dk.data.length + dk.iv.length < 4294967296) :
    ∀ bytes, (storeDataKey ks storageKey dk).1 = .ok bytes →
      (keyRegistryIteratorNext ks
        { encryptionKey := storageKey,
          fp := { content := bytes, pos := 0, writable := w },
          lenCrcBuf := stale }).1 = .ok (some dk) := by
  intro bytes hbytes
  rw [storeDataKey_eq_of_valid ks storageKey dk hk] at hbytes
  dsimp only at hbytes
  injection hbytes with hb
  subst hb
  have hivlen : (encDataKey ks storageKey dk).iv.length = dk.iv.length := by
    rw [encDataKey_iv]
  have hp : 0 < (encDataKey ks storageKey dk).marshal.length := by
    rw [DataKey.marshal_length]; omega
  have hpM : (encDataKey ks storageKey dk).marshal.length < 4294967296 := by
    rw [DataKey.marshal_length, encDataKey_data_length, hivlen]; omega
  rw [next_exact_record ks storageKey (encDataKey ks storageKey dk).marshal stale w
    hstale hp hpM]
  rw [DataKey.unmarshal_marshal (encDataKey ks storageKey dk)
    (by rw [encDataKey_keyId]; exact hid)
    (by rw [encDataKey_createdAt]; exact hclo)
    (by rw [encDataKey_createdAt]; exact hchi)
    (by rw [encDataKey_data_length]; omega)
    (by rw [hivlen]; omega)]
  dsimp only
  rcases hk with hk0 | ⟨hkv, hiv⟩
  · subst hk0
    rw [if_neg (by simp)]
    simp [encDataKey]
  · have hne : storageKey ≠ [] := validKeyLength_ne_nil hkv
    rw [if_pos hne]
    have hed : (encDataKey ks storageKey dk).data =
        xorKeystream ks storageKey dk.iv 0 dk.data := by
      simp [encDataKey, hne]
    rw [hed, encDataKey_iv]
    unfold XORBlock
    rw [if_neg (not_not_intro hkv), if_neg (by simp [hiv])]
    rw [xorKeystream_xorKeystream]
    obtain ⟨kid, kd, kiv, kc⟩ := dk
    simp [encDataKey, hne]

/-- Storage key for the round-trip witness. -/
def c6Key : List Nat := List.replicate 16 3

/-- DataKey for the round-trip witness. -/
def c6DK : DataKey :=
  { keyId := 9, data := [10, 20, 30], iv := List.replicate 16 1, createdAt := 1234567 }

/-- The bytes storeDataKey produces for c6DK under c6Key. -/
def c6Bytes : List Nat := ((storeDataKey ksSample c6Key c6DK).1).toOption.getD []

theorem storeDataKey_next_roundtrip_witness :
    (keyRegistryIteratorNext ksSample
      { encryptionKey := c6Key,
        fp := { content := c6Bytes, pos := 0, writable := false },
        lenCrcBuf := List.replicate 8 0 }).1 = .ok (some c6DK) :=
  storeDataKey_next_roundtrip ksSample c6Key c6DK (List.replicate 8 0) false
    (Or.inr ⟨by decide, by decide⟩) (by decide) (by decide) (by decide) (by decide)
    (by decide) c6Bytes rfl
